import Mathlib

/-!
Shallow embedding of `include/boost/beast/websocket/detail/impl/prng.ipp`
(Boost.Beast websocket PRNG subsystem): seed derivation (`prng_seed`),
the per-class nonce counters, the fast generator (`std::minstd_rand`),
the secure generator (`beast::detail::chacha<20>`, modelled from the spec
as an opaque keyed generator since `chacha.hpp` is not part of this
source tree), the pooled allocation strategy (`prng_pool`), and the
thread-exclusive strategy (`make_prng_tls`).

Machine integers are `Nat` with explicit reduction modulo `2^32`
(`std::uint32_t`) and `2^64` (`std::uint64_t`); the C++ `int` reference
count is `Int`.  Allocation (`boost::alignment::aligned_alloc`) is
modelled by a supply of fresh addresses plus a boolean telling whether
the allocation succeeds; a null return becomes `Except.error badAlloc`
(`BOOST_THROW_EXCEPTION(std::bad_alloc{})`).
-/

/-- The range of `std::uint32_t`. -/
def U32 : Nat := 2 ^ 32

/-- The range of `std::uint64_t`. -/
def U64 : Nat := 2 ^ 64

/-! ### Seed derivation: `prng_seed` (prng.ipp lines 30-56) -/

/-- The body of the local `data` constructor inside `prng_seed`: if no
seed sequence is supplied (`pss == nullptr`), an 8-word seed sequence is
built from the OS entropy source (`std::random_device g` drawn 8 times,
here the list `entropy`) and `generate`d into the 8 words `v`; otherwise
the supplied sequence is `generate`d.  `generate` stands for
`std::seed_seq::generate` applied to a sequence's initial values and
producing the 8 output words; it is standard-library code outside this
repository and is passed in as a parameter. -/
def dataCtor (generate : List Nat → List Nat) (entropy : List Nat)
    (ss : Option (List Nat)) : List Nat :=
  match ss with
  | none => generate entropy
  | some s => generate s

/-- `prng_seed` with its function-local `static data d(ss)` made
explicit: `cache = none` means the static has not been initialized yet;
the first call runs the `data` constructor on its own argument and
caches the result; every later call returns the cached words, its
argument unread.  Returns the 8 words and the updated cache. -/
def prng_seed (generate : List Nat → List Nat) (entropy : List Nat)
    (cache : Option (List Nat)) (ss : Option (List Nat)) :
    List Nat × Option (List Nat) :=
  match cache with
  | some v => (v, some v)
  | none =>
      let v := dataCtor generate entropy ss
      (v, some v)

/-- Run a sequence of `prng_seed` calls (one `ss` argument per call),
threading the static cache, and collect the returned word arrays. -/
def runSeedCalls (generate : List Nat → List Nat) (entropy : List Nat)
    (cache : Option (List Nat)) :
    List (Option (List Nat)) → List (List Nat)
  | [] => []
  | ss :: rest =>
      let r := prng_seed generate entropy cache ss
      r.1 :: runSeedCalls generate entropy r.2 rest

/-! ### Nonce counters

Each of the four local generator classes in the translation unit owns a
function-local `static std::atomic<std::uint64_t> nonce` inside its
constructor (prng.ipp lines 130-131, 174-175, 223-224, 261-262): the
counters are per-class, not shared across classes. -/

/-- The four local generator classes of the translation unit. -/
inductive GenClass
  | noTlsFast
  | noTlsSecure
  | tlsFast
  | tlsSecure
deriving DecidableEq, Repr

/-- The values of the four per-class nonce counters. -/
def NonceState : Type := GenClass → Nat

/-- All four `static std::atomic<std::uint64_t> nonce` counters start
at 0. -/
def initNonces : NonceState := fun _ => 0

/-- `++nonce` on the counter of class `c`: the counter is incremented
(wrapping at `2^64`, as `std::uint64_t` does) and the incremented value
is both stored and returned. -/
def drawNonce (s : NonceState) (c : GenClass) : NonceState × Nat :=
  let v := (s c + 1) % U64
  (fun c' => if c' = c then v else s c', v)

/-- Construct generator instances in the given order, recording for each
construction its class and the nonce value drawn for it. -/
def runTrace (s : NonceState) : List GenClass → List (GenClass × Nat)
  | [] => []
  | c :: cs =>
      let r := drawNonce s c
      (c, r.2) :: runTrace r.1 cs

/-! ### The fast generator: `std::minstd_rand` -/

/-- Modulus of `std::minstd_rand` (`2^31 - 1`). -/
def minstd_m : Nat := 2147483647

/-- Multiplier of `std::minstd_rand`. -/
def minstd_a : Nat := 48271

/-- Seeding of `std::linear_congruential_engine` with increment 0: the
state becomes the seed reduced modulo the modulus, bumped to 1 when that
reduction is 0. -/
def minstdSeedState (s : Nat) : Nat :=
  if s % minstd_m = 0 then 1 else s % minstd_m

/-- One step of `std::minstd_rand`: multiply by the multiplier modulo
the modulus. -/
def minstdStep (x : Nat) : Nat := (minstd_a * x) % minstd_m

/-- The stream of the first `n` values drawn from a `std::minstd_rand`
engine whose state is `x`: `operator()` advances the state and returns
the new state; `fast_prng::operator()` (prng.ipp lines 156-160 and
246-250) just forwards to it. -/
def fastStream (x : Nat) : Nat → List Nat
  | 0 => []
  | n + 1 => minstdStep x :: fastStream (minstdStep x) n

/-- 32-bit wrapping addition of two `std::uint32_t` values. -/
def add32 (a b : Nat) : Nat := (a + b) % U32

/-- The seed expression of the `fast_prng` constructors (prng.ipp lines
127-139 and 220-231): the eight seed-material words are summed
left-to-right in `std::uint32_t` arithmetic, the freshly incremented
64-bit nonce is added in `std::uint64_t` arithmetic, and the result is
cast back to the 32-bit `value_type`. -/
def fastSeed (pv : Fin 8 → Nat) (nonce : Nat) : Nat :=
  let s :=
    add32 (add32 (add32 (add32 (add32 (add32 (add32 (pv 0) (pv 1))
      (pv 2)) (pv 3)) (pv 4)) (pv 5)) (pv 6)) (pv 7)
  ((s + nonce) % U64) % U32

/-- The fast seed as §4.2 of the specification words it: the sum of the
8 seed-material words plus the freshly incremented nonce, truncated to
the algorithm's 32-bit word width. -/
def fastSeedSpec (pv : Fin 8 → Nat) (nonce : Nat) : Nat :=
  (pv 0 + pv 1 + pv 2 + pv 3 + pv 4 + pv 5 + pv 6 + pv 7 + nonce) % U32

/-! ### The secure generator -/

/-- Modelled from the spec: `beast::detail::chacha<20>` lives in
`boost/beast/core/detail/chacha.hpp`, which is not part of this source
tree; the spec (§1, §4.2) treats it as an opaque keyed generator —
constructed from the 8-word seed material (the key) and the freshly
incremented nonce (the block counter), producing words as a pure
function of that state. -/
structure ChaChaState where
  key : List Nat
  counter : Nat
  pos : Nat
deriving DecidableEq, Repr

/-- `secure_prng`'s constructor (prng.ipp lines 171-179 and 258-266):
the cipher is keyed with the words returned by `prng_seed()` and given
the freshly incremented nonce as its counter input. -/
def secure_prng_ctor (pv : List Nat) (nonce : Nat) : ChaChaState :=
  ⟨pv, nonce, 0⟩

/-- The stream of the first `n` words drawn from the secure generator:
`secure_prng::operator()` (prng.ipp lines 196-200 and 280-284) forwards
to the cipher `r_()`, whose (deterministic) transition is `step`. -/
def secureStream (step : ChaChaState → Nat × ChaChaState)
    (s : ChaChaState) : Nat → List Nat
  | 0 => []
  | n + 1 => (step s).1 :: secureStream step (step s).2 n

/-! ### Instances and the pooled strategy (`prng_pool`) -/

/-- A pooled generator instance: `id` is its address, `refs` the
`int refs_` member, `st` the generator payload (the `minstd_rand` state
for the fast variant, the cipher state for the secure variant).  The
intrusive `next` pointer is represented by the instance's position in
the free list. -/
structure Inst (σ : Type) where
  id : Nat
  refs : Int
  st : σ
deriving DecidableEq, Repr

/-- `fast_prng::acquire` / `secure_prng::acquire` (prng.ipp lines
142-147 and 182-187): `++refs_; return *this;` — the returned reference
is the very same object, with only the count changed. -/
def inst_acquire {σ : Type} (i : Inst σ) : Inst σ :=
  { i with refs := i.refs + 1 }

/-- State of a `prng_pool<T>` singleton together with its surroundings:
the free list (`head_` chasing `next` pointers), the class's nonce
counter (drawn only when a fresh instance is constructed), and the next
fresh address handed out by `aligned_alloc`. -/
structure PoolState (σ : Type) where
  freeList : List (Inst σ)
  nonce : Nat
  nextId : Nat
deriving DecidableEq, Repr

/-- The exceptions thrown by this translation unit. -/
inductive CppError
  | badAlloc
deriving DecidableEq, Repr

/-- `prng_pool::release` (prng.ipp lines 106-113): push the instance
onto the head of the free list (`t.next = head_; head_ = &t;`) — no
destruction, no re-seed. -/
def prng_pool_release {σ : Type} (t : Inst σ) (P : PoolState σ) :
    PoolState σ :=
  { P with freeList := t :: P.freeList }

/-- `fast_prng::release` / `secure_prng::release` (prng.ipp lines
149-154 and 189-194): `if(--refs_ == 0)` hand the instance back to the
pool's free list; otherwise the free list is untouched. -/
def inst_release {σ : Type} (i : Inst σ) (P : PoolState σ) :
    Inst σ × PoolState σ :=
  let i' : Inst σ := { i with refs := i.refs - 1 }
  (i', if i'.refs = 0 then prng_pool_release i' P else P)

/-- `prng_pool::acquire` (prng.ipp lines 86-104): under the lock, if the
free list is non-empty, pop the head and return `prng::ref(*p)`; else
`aligned_alloc(16, sizeof(T))` — on null, throw `std::bad_alloc` (the
pool untouched) — and placement-construct a new `T`, whose constructor
draws a fresh nonce and seeds from it via `seedNew`.  The handle
`prng::ref` is modelled from the spec: `prng::ref` is declared in
`prng.hpp`, which is not part of this source tree; §4.4 of the spec says
the returned handle leaves the instance's reference count
set/incremented to 1, i.e. the handle acquires the instance once on
construction. -/
def prng_pool_acquire {σ : Type} (seedNew : Nat → σ) (allocOk : Bool)
    (P : PoolState σ) : PoolState σ × Except CppError (Inst σ) :=
  match P.freeList with
  | p :: rest => ({ P with freeList := rest }, .ok (inst_acquire p))
  | [] =>
      if allocOk then
        let nonce' := (P.nonce + 1) % U64
        let fresh : Inst σ := ⟨P.nextId, 0, seedNew nonce'⟩
        (⟨[], nonce', P.nextId + 1⟩, .ok (inst_acquire fresh))
      else
        (P, .error .badAlloc)

/-- Seeding of a freshly constructed pooled `fast_prng` (prng.ipp lines
127-139): the engine state obtained from the `fastSeed` expression. -/
def fastSeedNew (pv : Fin 8 → Nat) (nonce : Nat) : Nat :=
  minstdSeedState (fastSeed pv nonce)

/-! ### Handle-operation interleavings on one pooled instance -/

/-- A handle operation on one held instance. -/
inductive HOp
  | acq
  | rel
deriving DecidableEq, Repr

/-- Run a sequence of handle operations on one pooled instance,
threading the instance and its pool. -/
def runOps {σ : Type} : Inst σ → PoolState σ → List HOp →
    Inst σ × PoolState σ
  | i, P, [] => (i, P)
  | i, P, HOp.acq :: ops => runOps (inst_acquire i) P ops
  | i, P, HOp.rel :: ops =>
      runOps (inst_release i P).1 (inst_release i P).2 ops

/-! ### The thread-exclusive strategy (`make_prng_tls`) -/

/-- A thread-exclusive generator instance: the tls `fast_prng` /
`secure_prng` classes (prng.ipp lines 215-285) carry no reference
count. -/
structure TlsInst where
  id : Nat
  st : Nat
deriving DecidableEq, Repr

/-- tls `fast_prng::acquire` (prng.ipp lines 235-239): `return *this;` —
no state is read or written; the pair returned is (the instance as it
remains, the instance handed out). -/
def tls_acquire (i : TlsInst) : TlsInst × TlsInst := (i, i)

/-- tls `fast_prng::release` (prng.ipp lines 241-244): empty body. -/
def tls_release (i : TlsInst) : TlsInst := i

/-- State of the thread-exclusive strategy for one variant: the
`thread_local` instance of each thread (`none` until that thread first
constructs it), the class's nonce counter, and the next fresh
address. -/
structure TlsState where
  insts : Nat → Option TlsInst
  nonce : Nat
  nextId : Nat

/-- `make_prng_tls` for the fast variant (prng.ipp lines 287-294): on
thread `t`, if the thread's `thread_local fast_prng fp` is already
constructed, return a handle to it; otherwise construct it — drawing a
fresh nonce and seeding the engine — and return a handle to it. -/
def make_prng_tls_fast (pv : Fin 8 → Nat) (S : TlsState) (t : Nat) :
    TlsState × TlsInst :=
  match S.insts t with
  | some i => (S, i)
  | none =>
      let nonce' := (S.nonce + 1) % U64
      let i : TlsInst := ⟨S.nextId, fastSeedNew pv nonce'⟩
      (⟨fun t' => if t' = t then some i else S.insts t',
        nonce', S.nextId + 1⟩, i)

/-! ### Helper lemmas -/

/-- Once the static cache is populated, every call returns the cached
words unchanged. -/
theorem runSeedCalls_cached (generate : List Nat → List Nat)
    (entropy : List Nat) (v : List Nat)
    (calls : List (Option (List Nat))) :
    runSeedCalls generate entropy (some v) calls =
      List.replicate calls.length v := by
  induction calls with
  | nil => rfl
  | cons ss rest ih =>
      simp [runSeedCalls, prng_seed, ih, List.replicate]

/-- Running handle operations never changes an instance's identity or
generator payload, and leaves the count at start plus acquisitions minus
releases. -/
theorem runOps_refs {σ : Type} (ops : List HOp) :
    ∀ (i : Inst σ) (P : PoolState σ),
      (runOps i P ops).1.id = i.id ∧ (runOps i P ops).1.st = i.st ∧
      (runOps i P ops).1.refs =
        i.refs + (ops.count HOp.acq : Int) - (ops.count HOp.rel : Int) := by
  induction ops with
  | nil => intro i P; simp [runOps]
  | cons op rest ih =>
      intro i P
      cases op with
      | acq =>
          have h := ih (inst_acquire i) P
          simp only [runOps] at h ⊢
          refine ⟨h.1, h.2.1, ?_⟩
          rw [h.2.2]
          simp [inst_acquire, List.count_cons]
          omega
      | rel =>
          have h := ih (inst_release i P).1 (inst_release i P).2
          simp only [runOps] at h ⊢
          refine ⟨h.1, h.2.1, ?_⟩
          rw [h.2.2]
          simp [inst_release, List.count_cons]
          omega

/-! ### Claim theorems -/

/-- C2: within one process, `prng_seed` computes the 8 words from its
first call's argument and returns that same value on every call after
the first, whatever seed sequence (or none) later calls pass: a seed
sequence supplied on a non-first call is silently ignored. -/
theorem prng_seed_first_call_wins (generate : List Nat → List Nat)
    (entropy : List Nat) (ss : Option (List Nat))
    (rest : List (Option (List Nat))) :
    runSeedCalls generate entropy none (ss :: rest) =
      dataCtor generate entropy ss ::
        List.replicate rest.length (dataCtor generate entropy ss) := by
  simp [runSeedCalls, prng_seed, runSeedCalls_cached]

/-- C7: the seed computed by the `fast_prng` constructors — 32-bit
wrapping sums of the eight seed-material words, then a 64-bit addition
of the freshly incremented nonce, then the cast to the 32-bit
`value_type` — equals the sum of the 8 seed-material words plus the
nonce, reduced modulo `2^32`, exactly as the specification states. -/
theorem fast_seed_is_sum_mod_u32 (pv : Fin 8 → Nat) (nonce : Nat) :
    fastSeed pv nonce = fastSeedSpec pv nonce := by
  unfold fastSeed fastSeedSpec add32
  rw [Nat.mod_mod_of_dvd _ (by norm_num [U32, U64] : U32 ∣ U64)]
  simp [Nat.mod_add_mod]

/-- C9: the output stream of either variant is a pure function of its
seeding inputs: two fast generators constructed from identical seed
material and identical nonce produce identical output sequences, and two
secure generators keyed with identical key material and counter produce
identical output sequences, for any (fixed, deterministic) cipher
transition. -/
theorem stream_determinism (pv1 pv2 : Fin 8 → Nat)
    (key1 key2 : List Nat) (n1 n2 c1 c2 k : Nat)
    (step : ChaChaState → Nat × ChaChaState)
    (hpv : pv1 = pv2) (hn : n1 = n2) (hk : key1 = key2) (hc : c1 = c2) :
    fastStream (minstdSeedState (fastSeed pv1 n1)) k =
        fastStream (minstdSeedState (fastSeed pv2 n2)) k ∧
      secureStream step (secure_prng_ctor key1 c1) k =
        secureStream step (secure_prng_ctor key2 c2) k := by
  rw [hpv, hn, hk, hc]
  exact ⟨rfl, rfl⟩

/-- Witness for C9 at concrete inputs. -/
theorem stream_determinism_witness :
    ((fun _ => (9 : Nat)) : Fin 8 → Nat) = (fun _ => (9 : Nat)) ∧
    ([1, 2, 3, 4, 5, 6, 7, 8] : List Nat) = [1, 2, 3, 4, 5, 6, 7, 8] ∧
    (fastStream (minstdSeedState (fastSeed (fun _ => 9) 5)) 3 =
        fastStream (minstdSeedState (fastSeed (fun _ => 9) 5)) 3 ∧
      secureStream (fun s => (s.pos, ⟨s.key, s.counter, s.pos + 1⟩))
          (secure_prng_ctor [1, 2, 3, 4, 5, 6, 7, 8] 1) 3 =
        secureStream (fun s => (s.pos, ⟨s.key, s.counter, s.pos + 1⟩))
          (secure_prng_ctor [1, 2, 3, 4, 5, 6, 7, 8] 1) 3) :=
  ⟨rfl, rfl,
    stream_determinism (fun _ => 9) (fun _ => 9)
      [1, 2, 3, 4, 5, 6, 7, 8] [1, 2, 3, 4, 5, 6, 7, 8] 5 5 1 1 3
      (fun s => (s.pos, ⟨s.key, s.counter, s.pos + 1⟩)) rfl rfl rfl rfl⟩

/-- C8: under the thread-exclusive strategy, `acquire` returns the very
same instance and modifies nothing, `release` changes nothing (no
reference count exists on the tls classes), and a second
`make_prng_tls` call from the same thread returns the same per-thread
instance with the strategy state unchanged. -/
theorem tls_noop_same_instance (pv : Fin 8 → Nat) (S : TlsState)
    (t : Nat) (i : TlsInst) :
    tls_acquire i = (i, i) ∧ tls_release i = i ∧
    make_prng_tls_fast pv (make_prng_tls_fast pv S t).1 t =
      ((make_prng_tls_fast pv S t).1, (make_prng_tls_fast pv S t).2) := by
  refine ⟨rfl, rfl, ?_⟩
  unfold make_prng_tls_fast
  cases h : S.insts t with
  | some j => simp [h]
  | none => simp [h]

/-- C3: in the pooled strategy, for every instance and every
interleaving of handle operations: `acquire` increments the reference
count and returns the same instance (same identity, same generator
payload), `release` decrements it, the instance is pushed onto its
pool's free list exactly when the decremented count reaches zero (a
release that leaves it non-zero does not touch the free list), and a run
of any interleaving leaves the count at its start value plus
acquisitions minus releases without ever touching identity or
payload. -/
theorem pooled_refcount_lifecycle {σ : Type} (i : Inst σ)
    (P : PoolState σ) (ops : List HOp) :
    inst_acquire i = ⟨i.id, i.refs + 1, i.st⟩ ∧
    (inst_release i P).1 = ⟨i.id, i.refs - 1, i.st⟩ ∧
    (inst_release i P).2 =
      (if i.refs - 1 = 0
        then prng_pool_release ⟨i.id, i.refs - 1, i.st⟩ P
        else P) ∧
    (runOps i P ops).1.id = i.id ∧ (runOps i P ops).1.st = i.st ∧
    (runOps i P ops).1.refs =
      i.refs + (ops.count HOp.acq : Int) - (ops.count HOp.rel : Int) := by
  have h := runOps_refs ops i P
  exact ⟨rfl, rfl, rfl, h.1, h.2.1, h.2.2⟩

/-- C5: `prng_pool::acquire` pops the head of a non-empty free list and
returns a handle over that very node with its reference count at 1
(idle nodes carry count 0), and on an empty free list allocates a fresh
address, constructs and seeds a new instance there (drawing a fresh
nonce), and returns a handle over it with count 1. -/
theorem prng_pool_acquire_spec {σ : Type} (seedNew : Nat → σ)
    (P : PoolState σ) (p : Inst σ) (rest : List (Inst σ)) :
    (P.freeList = p :: rest → p.refs = 0 →
      prng_pool_acquire seedNew true P =
        (⟨rest, P.nonce, P.nextId⟩, .ok ⟨p.id, 1, p.st⟩)) ∧
    (P.freeList = [] →
      prng_pool_acquire seedNew true P =
        (⟨[], (P.nonce + 1) % U64, P.nextId + 1⟩,
          .ok ⟨P.nextId, 1, seedNew ((P.nonce + 1) % U64)⟩)) := by
  constructor
  · intro hfl hrefs
    obtain ⟨fl, no, ni⟩ := P
    simp only at hfl
    subst hfl
    simp [prng_pool_acquire, inst_acquire, hrefs]
  · intro hfl
    obtain ⟨fl, no, ni⟩ := P
    simp only at hfl
    subst hfl
    simp [prng_pool_acquire, inst_acquire]

/-- Witness for C5 at concrete inputs: a pool whose free list holds one
idle instance, and an empty pool. -/
theorem prng_pool_acquire_spec_witness :
    ((⟨[⟨0, 0, 7⟩], 3, 1⟩ : PoolState Nat).freeList = ⟨0, 0, 7⟩ :: []) ∧
    ((⟨0, 0, 7⟩ : Inst Nat).refs = 0) ∧
    ((⟨[], 3, 1⟩ : PoolState Nat).freeList = []) ∧
    prng_pool_acquire (fun n => n) true (⟨[⟨0, 0, 7⟩], 3, 1⟩ : PoolState Nat) =
      (⟨[], 3, 1⟩, .ok ⟨0, 1, 7⟩) ∧
    prng_pool_acquire (fun n => n) true (⟨[], 3, 1⟩ : PoolState Nat) =
      (⟨[], (3 + 1) % U64, 1 + 1⟩, .ok ⟨1, 1, (3 + 1) % U64⟩) :=
  ⟨rfl, rfl, rfl,
    (prng_pool_acquire_spec (fun n => n)
      (⟨[⟨0, 0, 7⟩], 3, 1⟩ : PoolState Nat) ⟨0, 0, 7⟩ []).1 rfl rfl,
    (prng_pool_acquire_spec (fun n => n)
      (⟨[], 3, 1⟩ : PoolState Nat) ⟨0, 0, 7⟩ []).2 rfl⟩

/-- C6: when the free list is empty and `aligned_alloc` returns null,
`prng_pool::acquire` throws `std::bad_alloc` to the caller without any
internal retry and with the pool — in particular its free list —
unchanged; a subsequent acquire on the same pool still works once
allocation succeeds again. -/
theorem acquire_alloc_failure {σ : Type} (seedNew : Nat → σ)
    (P : PoolState σ) (h : P.freeList = []) :
    prng_pool_acquire seedNew false P = (P, .error CppError.badAlloc) ∧
    prng_pool_acquire seedNew true P =
      (⟨[], (P.nonce + 1) % U64, P.nextId + 1⟩,
        .ok ⟨P.nextId, 1, seedNew ((P.nonce + 1) % U64)⟩) := by
  obtain ⟨fl, no, ni⟩ := P
  simp only at h
  subst h
  constructor
  · simp [prng_pool_acquire]
  · simp [prng_pool_acquire, inst_acquire]

/-- Witness for C6 at a concrete empty pool. -/
theorem acquire_alloc_failure_witness :
    ((⟨[], 0, 0⟩ : PoolState Nat).freeList = []) ∧
    prng_pool_acquire (fun n => n) false (⟨[], 0, 0⟩ : PoolState Nat) =
      (⟨[], 0, 0⟩, .error CppError.badAlloc) ∧
    prng_pool_acquire (fun n => n) true (⟨[], 0, 0⟩ : PoolState Nat) =
      (⟨[], (0 + 1) % U64, 0 + 1⟩, .ok ⟨0, 1, (0 + 1) % U64⟩) :=
  ⟨rfl,
    (acquire_alloc_failure (fun n => n) (⟨[], 0, 0⟩ : PoolState Nat) rfl).1,
    (acquire_alloc_failure (fun n => n) (⟨[], 0, 0⟩ : PoolState Nat) rfl).2⟩

/-- C4: after a release that drops a held instance's count from 1 to 0
(handing it to the free list head), the next acquire on the same pool
pops that very instance — same identity, same engine state, count back
at 1, free list restored — and, the engine state being untouched by the
round trip (no destruction, no re-seed), its output stream continues
exactly where it left off. -/
theorem pool_round_trip (pv : Fin 8 → Nat) (t : Inst Nat)
    (P : PoolState Nat) (ht : t.refs = 1) (k : Nat) :
    (inst_release t P).2 = prng_pool_release ⟨t.id, 0, t.st⟩ P ∧
    prng_pool_acquire (fastSeedNew pv) true (inst_release t P).2 =
      ((⟨P.freeList, P.nonce, P.nextId⟩ : PoolState Nat),
        .ok ⟨t.id, 1, t.st⟩) ∧
    fastStream ((⟨t.id, 1, t.st⟩ : Inst Nat)).st k = fastStream t.st k := by
  obtain ⟨tid, trefs, tst⟩ := t
  obtain ⟨fl, no, ni⟩ := P
  simp only at ht
  subst ht
  refine ⟨?_, ?_, rfl⟩
  · simp [inst_release, prng_pool_release]
  · simp [inst_release, prng_pool_release, prng_pool_acquire,
      inst_acquire]

/-- Witness for C4 at a concrete held instance and pool. -/
theorem pool_round_trip_witness :
    ((⟨5, 1, 42⟩ : Inst Nat).refs = 1) ∧
    ((inst_release (⟨5, 1, 42⟩ : Inst Nat) (⟨[], 0, 9⟩ : PoolState Nat)).2 =
        prng_pool_release ⟨5, 0, 42⟩ ⟨[], 0, 9⟩ ∧
      prng_pool_acquire (fastSeedNew (fun _ => 0)) true
          (inst_release (⟨5, 1, 42⟩ : Inst Nat) (⟨[], 0, 9⟩ : PoolState Nat)).2 =
        ((⟨[], 0, 9⟩ : PoolState Nat), .ok ⟨5, 1, 42⟩) ∧
      fastStream ((⟨5, 1, 42⟩ : Inst Nat)).st 3 = fastStream 42 3) :=
  ⟨rfl, pool_round_trip (fun _ => 0) ⟨5, 1, 42⟩ ⟨[], 0, 9⟩ rfl 3⟩

/-- The modulus of `std::minstd_rand` is coprime to its multiplier. -/
theorem minstd_coprime : Nat.Coprime minstd_m minstd_a := by decide

/-- One engine step keeps the state inside `[1, m - 1]`. -/
theorem minstdStep_range (x : Nat) (h1 : 1 ≤ x) (h2 : x ≤ minstd_m - 1) :
    1 ≤ minstdStep x ∧ minstdStep x ≤ minstd_m - 1 := by
  have hm : minstd_m = 2147483647 := rfl
  have hlt : minstdStep x < minstd_m :=
    Nat.mod_lt _ (by rw [hm]; omega)
  constructor
  · rcases Nat.eq_zero_or_pos (minstdStep x) with h0 | hp
    · exfalso
      have hdvd : minstd_m ∣ minstd_a * x := Nat.dvd_of_mod_eq_zero h0
      have hx : minstd_m ∣ x := minstd_coprime.dvd_of_dvd_mul_left hdvd
      have := Nat.le_of_dvd (by omega) hx
      omega
    · exact hp
  · omega

/-- Every value of the stream from a state inside `[1, m - 1]` is inside
`[1, m - 1]`. -/
theorem fastStream_range (n : Nat) :
    ∀ x : Nat, 1 ≤ x → x ≤ minstd_m - 1 →
      ∀ v ∈ fastStream x n, 1 ≤ v ∧ v ≤ minstd_m - 1 := by
  induction n with
  | zero => intro x _ _ v hv; simp [fastStream] at hv
  | succ n ih =>
      intro x h1 h2 v hv
      simp only [fastStream, List.mem_cons] at hv
      obtain ⟨hs1, hs2⟩ := minstdStep_range x h1 h2
      rcases hv with rfl | hv
      · exact ⟨hs1, hs2⟩
      · exact ih (minstdStep x) hs1 hs2 v hv

/-- Seeding puts the engine state inside `[1, m - 1]`. -/
theorem minstdSeedState_range (s : Nat) :
    1 ≤ minstdSeedState s ∧ minstdSeedState s ≤ minstd_m - 1 := by
  have hm : minstd_m = 2147483647 := rfl
  have hlt : s % minstd_m < minstd_m := Nat.mod_lt _ (by rw [hm]; omega)
  unfold minstdSeedState
  split <;> omega

/-- C10: every value the fast variant produces, from any seed, lies in
`[1, 2^31 - 2]`: the `std::minstd_rand` engine never yields 0 and never
yields a value with the top bit of the 32-bit interface word set, so the
fast variant never produces a zero mask word. -/
theorem fast_output_range (seed n v : Nat)
    (hv : v ∈ fastStream (minstdSeedState seed) n) :
    1 ≤ v ∧ v ≤ 2 ^ 31 - 2 := by
  obtain ⟨h1, h2⟩ := minstdSeedState_range seed
  have h := fastStream_range n (minstdSeedState seed) h1 h2 v hv
  have hm : minstd_m = 2147483647 := rfl
  have hp : (2 : Nat) ^ 31 - 2 = 2147483646 := by norm_num
  omega

/-- Witness for C10: the first value drawn after seeding with 0. -/
theorem fast_output_range_witness :
    48271 ∈ fastStream (minstdSeedState 0) 1 ∧
      (1 ≤ 48271 ∧ 48271 ≤ 2 ^ 31 - 2) :=
  ⟨by decide, fast_output_range 0 1 48271 (by decide)⟩

/-- Position `i` of a construction trace records the class at position
`i` together with the nonce it drew: one more than the number of earlier
constructions of the same class (on top of that class's starting counter
value), wrapped at `2^64`. -/
theorem runTrace_getElem (cs : List GenClass) :
    ∀ (s : NonceState) (i : Nat) (c : GenClass), cs[i]? = some c →
      (runTrace s cs)[i]? =
        some (c, (s c + (cs.take i).count c + 1) % U64) := by
  induction cs with
  | nil => intro s i c h; simp at h
  | cons c0 cs ih =>
      intro s i c h
      cases i with
      | zero =>
          simp only [List.getElem?_cons_zero, Option.some.injEq] at h
          subst h
          simp [runTrace, drawNonce]
      | succ i =>
          simp only [List.getElem?_cons_succ] at h
          have hih := ih (drawNonce s c0).1 i c h
          simp only [runTrace, List.getElem?_cons_succ]
          rw [hih]
          simp only [drawNonce, List.take_succ_cons, List.count_cons]
          by_cases hc : c = c0
          · subst hc
            have hU : U64 = 18446744073709551616 := rfl
            simp only [beq_self_eq_true, if_true, reduceIte,
              Option.some.injEq, Prod.mk.injEq, true_and]
            rw [hU]
            omega
          · simp [hc, Ne.symm hc]

/-- C1 counterexample: the nonce counters are per-class, not
process-wide — constructing one `fast_prng` and then one `secure_prng`
through `make_prng_no_tls` draws the nonce value 1 for both instances,
so two distinct instances of different variants share a nonce. -/
theorem nonce_shared_across_variants :
    runTrace initNonces [GenClass.noTlsFast, GenClass.noTlsSecure] =
      [(GenClass.noTlsFast, 1), (GenClass.noTlsSecure, 1)] := by decide

/-- C1 amended: each of the four generator classes (variant × strategy)
owns its own process-wide monotonically increasing 64-bit counter,
incremented atomically once per construction of that class; two distinct
instances of the same class constructed in a process with fewer than
`2^64` constructions of that class draw distinct nonce values —
instances of different classes may share nonce values. -/
theorem nonce_unique_within_class (cs : List GenClass) (i j : Nat)
    (c : GenClass) (hij : i < j) (hi : cs[i]? = some c)
    (hj : cs[j]? = some c) (hcount : cs.count c < U64) :
    (runTrace initNonces cs)[i]? ≠ (runTrace initNonces cs)[j]? := by
  rw [runTrace_getElem cs initNonces i c hi,
    runTrace_getElem cs initNonces j c hj]
  have h1 : (cs.take i).count c + 1 ≤ (cs.take j).count c := by
    have e : cs.take (i + 1) = cs.take i ++ [c] := by
      rw [List.take_succ, hi]; rfl
    have hsub : List.Sublist (cs.take (i + 1)) (cs.take j) := by
      have h := (cs.take j).take_sublist (i + 1)
      rwa [List.take_take, min_eq_left (by omega)] at h
    have hle := hsub.count_le c
    rw [e, List.count_append] at hle
    simp at hle
    omega
  have h2 : (cs.take j).count c + 1 ≤ cs.count c := by
    have e : cs.take (j + 1) = cs.take j ++ [c] := by
      rw [List.take_succ, hj]; rfl
    have hsub : List.Sublist (cs.take (j + 1)) cs := cs.take_sublist _
    have hle := hsub.count_le c
    rw [e, List.count_append] at hle
    simp at hle
    omega
  intro heq
  have hU : U64 = 18446744073709551616 := rfl
  simp only [initNonces, Option.some.injEq, Prod.mk.injEq, true_and,
    Nat.zero_add] at heq
  rw [Nat.mod_eq_of_lt (by omega), Nat.mod_eq_of_lt (by omega)] at heq
  omega

/-- Witness for the amended C1: two `fast_prng` constructions through
`make_prng_no_tls` draw the distinct nonces 1 and 2. -/
theorem nonce_unique_within_class_witness :
    (0 : Nat) < 1 ∧
    (([GenClass.noTlsFast, GenClass.noTlsFast][0]? =
        some GenClass.noTlsFast) ∧
      ([GenClass.noTlsFast, GenClass.noTlsFast][1]? =
        some GenClass.noTlsFast) ∧
      [GenClass.noTlsFast, GenClass.noTlsFast].count GenClass.noTlsFast <
        U64) ∧
    (runTrace initNonces [GenClass.noTlsFast, GenClass.noTlsFast])[0]? ≠
      (runTrace initNonces [GenClass.noTlsFast, GenClass.noTlsFast])[1]? :=
  ⟨by decide, ⟨by decide, by decide, by decide⟩,
    nonce_unique_within_class _ 0 1 GenClass.noTlsFast (by decide)
      (by decide) (by decide) (by decide)⟩
